import Mathlib

/-!
# Verification of the vrc-get package add-request planner and unity management

Shallow embedding of `src/vrc-get-vpm/src/unity_project/add_package.rs`,
`src/vrc-get-vpm/src/environment/unity_management.rs` and the collaborating
components they use.  Components of the repository that are not present under
`src/` (the version/range model, the manifest model, the pending-changes
builder and the resolution algorithm) are modelled from the specification, as
marked on each definition.
-/

namespace VrcGet

/-- Modelled from the spec: `Version` is "a totally ordered, structurally
comparable value (major, minor, patch, optional prerelease tag)".  The
version/range model is repository code not included under `src/`. -/
structure Version where
  major : Nat
  minor : Nat
  patch : Nat
  pre : Option String
deriving DecidableEq, Repr

/-- Trichotomy of the order on prerelease tags, specialised to strings. -/
theorem stringLtTrichot (x y : String) : x < y ∨ x = y ∨ y < x :=
  lt_trichotomy x y

/-- Asymmetry of the order on prerelease tags, specialised to strings. -/
theorem stringLtAsymm {x y : String} (h : x < y) : ¬ y < x :=
  lt_asymm h

/-- Irreflexivity of the order on prerelease tags, specialised to strings. -/
theorem stringLtIrrefl (x : String) : ¬ x < x :=
  lt_irrefl x

/-- Modelled from the spec: strict ordering of versions — lexicographic on
(major, minor, patch); at an equal triple a prerelease version precedes the
release version, and prerelease tags compare by their own order. -/
def Version.lt (a b : Version) : Bool :=
  if a.major < b.major then true
  else if b.major < a.major then false
  else if a.minor < b.minor then true
  else if b.minor < a.minor then false
  else if a.patch < b.patch then true
  else if b.patch < a.patch then false
  else match a.pre, b.pre with
    | some _, none => true
    | none, _ => false
    | some x, some y => decide (x < y)

/-- Modelled from the spec: non-strict ordering of versions. -/
def Version.le (a b : Version) : Bool :=
  Version.lt a b || a == b

theorem Version.lt_irrefl (a : Version) : Version.lt a a = false := by
  obtain ⟨am, ai, ap, apre⟩ := a
  simp only [Version.lt, Nat.lt_irrefl, if_false]
  cases apre <;> simp [stringLtIrrefl]

theorem Version.lt_trichotomy (a b : Version) :
    Version.lt a b = true ∨ a = b ∨ Version.lt b a = true := by
  obtain ⟨am, ai, ap, apre⟩ := a
  obtain ⟨bm, bi, bp, bpre⟩ := b
  simp only [Version.lt]
  rcases Nat.lt_trichotomy am bm with hm | hm | hm
  · exact Or.inl (by simp [hm])
  · subst hm
    rcases Nat.lt_trichotomy ai bi with hi | hi | hi
    · exact Or.inl (by simp [hi, Nat.lt_irrefl])
    · subst hi
      rcases Nat.lt_trichotomy ap bp with hp | hp | hp
      · exact Or.inl (by simp [hp, Nat.lt_irrefl])
      · subst hp
        match apre, bpre with
        | none, none => exact Or.inr (Or.inl rfl)
        | none, some y => exact Or.inr (Or.inr (by simp [Nat.lt_irrefl]))
        | some x, none => exact Or.inl (by simp [Nat.lt_irrefl])
        | some x, some y =>
          rcases stringLtTrichot x y with h | h | h
          · exact Or.inl (by simp [Nat.lt_irrefl, h])
          · exact Or.inr (Or.inl (by simp [h]))
          · exact Or.inr (Or.inr (by simp [Nat.lt_irrefl, h]))
      · refine Or.inr (Or.inr ?_)
        simp [hp, Nat.lt_asymm hp, Nat.lt_irrefl]
    · refine Or.inr (Or.inr ?_)
      simp [hi, Nat.lt_asymm hi, Nat.lt_irrefl]
  · refine Or.inr (Or.inr ?_)
    simp [hm, Nat.lt_asymm hm]

theorem Version.lt_asymm {a b : Version} (h : Version.lt a b = true) :
    Version.lt b a = false := by
  obtain ⟨am, ai, ap, apre⟩ := a
  obtain ⟨bm, bi, bp, bpre⟩ := b
  simp only [Version.lt] at h ⊢
  rcases Nat.lt_trichotomy am bm with hm | hm | hm
  · simp [hm, Nat.lt_asymm hm]
  · subst hm
    simp only [Nat.lt_irrefl, if_false] at h ⊢
    rcases Nat.lt_trichotomy ai bi with hi | hi | hi
    · simp [hi, Nat.lt_asymm hi]
    · subst hi
      simp only [Nat.lt_irrefl, if_false] at h ⊢
      rcases Nat.lt_trichotomy ap bp with hp | hp | hp
      · simp [hp, Nat.lt_asymm hp]
      · subst hp
        simp only [Nat.lt_irrefl, if_false] at h ⊢
        match apre, bpre with
        | none, none => simp at h
        | none, some y => simp at h
        | some x, none => simp
        | some x, some y =>
          simp only [decide_eq_true_eq] at h
          simp [stringLtAsymm h]
      · simp [hp, Nat.lt_asymm hp] at h
    · simp [hi, Nat.lt_asymm hi] at h
  · simp [hm, Nat.lt_asymm hm] at h

/-- On versions, `¬ (b ≤ a)` coincides with `a < b`. -/
theorem Version.lt_iff_not_le (a b : Version) :
    Version.lt a b = true ↔ ¬ (Version.le b a = true) := by
  constructor
  · intro h hle
    simp only [Version.le, Bool.or_eq_true, beq_iff_eq] at hle
    rcases hle with hlt | heq
    · have := Version.lt_asymm h
      rw [this] at hlt; exact Bool.false_ne_true hlt
    · subst heq
      rw [Version.lt_irrefl] at h; exact Bool.false_ne_true h
  · intro h
    rcases Version.lt_trichotomy a b with h1 | h1 | h1
    · exact h1
    · exact absurd (by simp [Version.le, h1]) h
    · exact absurd (by simp [Version.le, h1]) h

/-- Modelled from the spec: a `Range` "supports exact-version ranges and
comparator ranges (>=, caret-style compatible-with, wildcard)" and "must
expose whether it denotes exactly one version". -/
inductive DependencyRange where
  | version (v : Version)
  | atLeast (v : Version)
  | caret (v : Version)
  | wildcard
deriving DecidableEq, Repr

/-- Modelled from the spec: extract "is this range exactly one version". -/
def DependencyRange.as_single_version : DependencyRange → Option Version
  | .version v => some v
  | _ => none

/-- Modelled from the spec: "does version V satisfy range R". -/
def DependencyRange.satisfies : DependencyRange → Version → Bool
  | .version v, w => v == w
  | .atLeast v, w => Version.le v w
  | .caret v, w => Version.le v w && w.major == v.major
  | .wildcard, _ => true

/-- A Unity editor version.  The parser for version strings is not part of the
core; only structural comparison (major, minor, revision, release type,
increment) is needed here. -/
structure UnityVersion where
  major : Nat
  minor : Nat
  revision : Nat
  release_type : Char
  increment : Nat
deriving DecidableEq, Repr

/-- Modelled from the spec: an immutable candidate package — "name, version,
declared dependencies (name → Range), ... optional list of legacy names it
supersedes".  The engine-compatibility constraint is applied by the Package
Source collaborator, so it is not repeated here. -/
structure PackageInfo where
  name : String
  version : Version
  vpm_dependencies : List (String × DependencyRange)
  legacy_packages : List String
deriving DecidableEq, Repr

/-- Modelled from the spec: a locked entry of the manifest — "name →
(Version, dependency list)". -/
structure LockedDependency where
  version : Version
  dependencies : List (String × DependencyRange)
deriving DecidableEq, Repr

/-- Modelled from the spec: the project manifest read model —
`dependencies`: name → Range, and `locked`: name → (Version, deps),
each unique by name. -/
structure VpmManifest where
  dependencies : List (String × DependencyRange)
  locked : List (String × LockedDependency)
deriving DecidableEq, Repr

/-- Modelled from the spec: manifest accessor `get_dependency(name)`. -/
def VpmManifest.get_dependency (m : VpmManifest) (name : String) :
    Option DependencyRange :=
  m.dependencies.lookup name

/-- Modelled from the spec: manifest accessor `get_locked(name)`. -/
def VpmManifest.get_locked (m : VpmManifest) (name : String) :
    Option LockedDependency :=
  m.locked.lookup name

/-- Modelled from the spec: manifest accessor `is_locked(name)`. -/
def VpmManifest.is_locked (m : VpmManifest) (name : String) : Bool :=
  (m.get_locked name).isSome

/-- Modelled from the spec: manifest accessor `all_locked()`. -/
def VpmManifest.all_locked (m : VpmManifest) :
    List (String × LockedDependency) :=
  m.locked

/-- The project as seen by `add_package_request`: its manifest and the Unity
version it targets. -/
structure UnityProject where
  manifest : VpmManifest
  unity_version : Option UnityVersion

/-- From `add_package.rs`: reasons a locked package is removed; only `Legacy`
is produced by this module. -/
inductive RemoveReason where
  | legacy
  | unused
deriving DecidableEq, Repr

/-- From `add_package.rs`: the error enumeration of the add-request planner. -/
inductive AddPackageErr where
  | dependencyNotFound (dependency_name : String)
  | upgradingNonLockedPackage (package_name : String)
deriving DecidableEq, Repr

/-- From `add_package.rs`: the two operation modes of `add_package_request`. -/
inductive AddPackageOperation where
  | installToDependencies
  | upgradeLocked
deriving DecidableEq, Repr

/-- Modelled from the spec: the staged plan — "additions to `dependencies`,
additions to `locked` (ordered list of PackageInfo to install), removals
(name, RemoveReason), conflicts (name → ordered list of requesting package
names)". -/
structure PendingProjectChanges where
  dependencies : List (String × DependencyRange)
  locked_additions : List PackageInfo
  removals : List (String × RemoveReason)
  conflicts : List (String × List String)
deriving DecidableEq, Repr

/-- Modelled from the spec: the Pending Changes Builder, "constructed empty,
populated only through the Builder's mutation operations". -/
structure Builder where
  dependencies : List (String × DependencyRange)
  locked_additions : List PackageInfo
  removals : List (String × RemoveReason)
  conflicts : List (String × List String)
deriving DecidableEq, Repr

/-- Modelled from the spec: `Builder::new()` constructs the empty staging
object. -/
def Builder.new : Builder := ⟨[], [], [], []⟩

/-- Modelled from the spec: mutation `add_to_dependencies(name, range)`. -/
def Builder.add_to_dependencies (b : Builder) (name : String)
    (range : DependencyRange) : Builder :=
  { b with dependencies := b.dependencies ++ [(name, range)] }

/-- Modelled from the spec: mutation `install_to_locked(package_info)`. -/
def Builder.install_to_locked (b : Builder) (p : PackageInfo) : Builder :=
  { b with locked_additions := b.locked_additions ++ [p] }

/-- Modelled from the spec: mutation `remove(name, reason)`. -/
def Builder.remove (b : Builder) (name : String) (reason : RemoveReason) :
    Builder :=
  { b with removals := b.removals ++ [(name, reason)] }

/-- Modelled from the spec: mutation `conflict_multiple(name, requesters)`. -/
def Builder.conflict_multiple (b : Builder) (name : String)
    (requesters : List String) : Builder :=
  { b with conflicts := b.conflicts ++ [(name, requesters)] }

/-- Modelled from the spec: `build_no_resolve()` "returns a plan containing
only whatever top-level `dependencies` edits were staged, with empty
locked-additions/removals/conflicts". -/
def Builder.build_no_resolve (b : Builder) : PendingProjectChanges :=
  ⟨b.dependencies, [], [], []⟩

/-- Modelled from the spec: `build_resolve(project)` "re-reads the current
project state ... and produces the full plan".  The re-read is an external
I/O capability; in this embedding the staged state is final. -/
def Builder.build_resolve (b : Builder) (_project : UnityProject) :
    PendingProjectChanges :=
  ⟨b.dependencies, b.locked_additions, b.removals, b.conflicts⟩

/-- Modelled from the spec: the Package Source capability —
"`find(name, range, engine_version, allow_prerelease) -> [PackageInfo]`
ordered best-first"; the resolver always takes the first candidate. -/
structure PackageCollection where
  find : String → DependencyRange → Option UnityVersion → Bool →
    List PackageInfo

/-- Modelled from the spec: the result of the resolution pass — "the list of
newly chosen packages (addition set), the conflict map, and the
legacy-removal name set". -/
structure AddingPackages where
  new_packages : List PackageInfo
  conflicts : List (String × List String)
  found_legacy_packages : List String
deriving DecidableEq, Repr

/-- A dependency request on the resolution work queue: the dependency name,
the range the consumer wants, and the consumer's (requester's) name. -/
structure QueueItem where
  name : String
  range : DependencyRange
  requester : String
deriving DecidableEq, Repr

/-- Appends a requester name to a conflict requester list, keeping entries
distinct ("listing every distinct requesting package name"). -/
def addRequester (l : List String) (r : String) : List String :=
  if r ∈ l then l else l ++ [r]

/-- Modelled from the spec: records a conflict entry keyed by the dependency
name; on first conflict for a name, the package that first chose the version
(if any) is listed before the newly conflicting requester, in first-seen
order. -/
def insertConflict : List (String × List String) → String → String →
    Option String → List (String × List String)
  | [], name, req, chooser =>
    [(name, match chooser with
            | some c => addRequester [c] req
            | none => [req])]
  | (n, reqs) :: rest, name, req, chooser =>
    if n = name then (n, addRequester reqs req) :: rest
    else (n, reqs) :: insertConflict rest name req chooser

/-- Accumulated state of one resolution pass: the packages chosen for
addition, which consumer first caused each name to be chosen, and the
conflict map. -/
structure ResolveState where
  new_packages : List PackageInfo
  chosen_by : List (String × String)
  conflicts : List (String × List String)
deriving Repr

/-- Modelled from the spec: the work-queue walk of the resolution algorithm
(§4.2).  For a popped dependency request: reuse an already-chosen or locked
compatible version; on an incompatible already-chosen version record a
conflict and continue (conflicts are advisory, not fatal); otherwise take the
Package Source's first candidate, enqueue its declared dependencies, or fail
with `DependencyNotFound` when there is none.  The walk is bounded by fuel;
at exhaustion the state accumulated so far is returned. -/
def resolveLoop (getLocked : String → Option LockedDependency)
    (unity : Option UnityVersion) (env : PackageCollection)
    (allow_prerelease : Bool) :
    Nat → List QueueItem → ResolveState →
    Except AddPackageErr ResolveState
  | 0, _, st => .ok st
  | _ + 1, [], st => .ok st
  | fuel + 1, item :: rest, st =>
    match st.new_packages.find? (fun p => p.name == item.name) with
    | some chosen =>
      if item.range.satisfies chosen.version then
        resolveLoop getLocked unity env allow_prerelease fuel rest st
      else
        let conflicts :=
          insertConflict st.conflicts item.name item.requester
            (st.chosen_by.lookup item.name)
        resolveLoop getLocked unity env allow_prerelease fuel rest
          { st with conflicts := conflicts }
    | none =>
      let reuseLocked :=
        match getLocked item.name with
        | some locked => item.range.satisfies locked.version
        | none => false
      if reuseLocked then
        resolveLoop getLocked unity env allow_prerelease fuel rest st
      else
        match (env.find item.name item.range unity allow_prerelease).head? with
        | none => .error (.dependencyNotFound item.name)
        | some pkg =>
          resolveLoop getLocked unity env allow_prerelease fuel
            (rest ++ pkg.vpm_dependencies.map
              (fun d => ⟨d.1, d.2, pkg.name⟩))
            { st with
                new_packages := st.new_packages ++ [pkg]
                chosen_by := st.chosen_by ++ [(item.name, item.requester)] }

/-- Modelled from the spec: `collect_adding_packages`, the transitive-closure
resolver of §4.2.  Seeds the queue with the dependencies of the adding set
(whose members are already chosen), walks it, and reports the newly chosen
packages, the conflict map, and every legacy name declared by a newly chosen
candidate.  This component of the repository is not included under `src/`. -/
def collect_adding_packages (fuel : Nat)
    (_dependencies : List (String × DependencyRange))
    (locked : List (String × LockedDependency))
    (unity : Option UnityVersion) (env : PackageCollection)
    (adding_packages : List PackageInfo) (allow_prerelease : Bool) :
    Except AddPackageErr AddingPackages :=
  let getLocked := fun name => locked.lookup name
  let queue := adding_packages.flatMap
    (fun p => p.vpm_dependencies.map (fun d => QueueItem.mk d.1 d.2 p.name))
  (resolveLoop getLocked unity env allow_prerelease fuel queue
      ⟨adding_packages, [], []⟩).map
    fun st =>
      ⟨st.new_packages, st.conflicts,
        (st.new_packages.map PackageInfo.legacy_packages).flatten⟩

/-- From `add_package.rs` (lines 91–115): `check_and_add_adding_package` —
the request joins the adding set exactly when no locked entry for its name
has a version at least the requested one. -/
def check_and_add_adding_package (request : PackageInfo)
    (adding_packages : List PackageInfo) (manifest : VpmManifest) :
    List PackageInfo :=
  if ((manifest.get_locked request.name).map
        (fun locked => Version.lt locked.version request.version)).getD true
  then adding_packages ++ [request]
  else adding_packages

/-- From `add_package.rs` (lines 62–67): whether an `InstallToDependencies`
request must stage a top-level dependency declaration. -/
def shouldAddToDependencies (manifest : VpmManifest)
    (request : PackageInfo) : Bool :=
  (((manifest.get_dependency request.name).bind
      DependencyRange.as_single_version).map
    (fun full => Version.lt full request.version)).getD true

/-- From `add_package.rs` (lines 59–116): the per-request classification loop
of `add_package_request`, threading the staged changes and the adding set. -/
def processRequests (manifest : VpmManifest)
    (operation : AddPackageOperation) :
    List PackageInfo → Builder → List PackageInfo →
    Except AddPackageErr (Builder × List PackageInfo)
  | [], changes, adding_packages => .ok (changes, adding_packages)
  | request :: rest, changes, adding_packages =>
    match operation with
    | .installToDependencies =>
      let changes :=
        if shouldAddToDependencies manifest request then
          changes.add_to_dependencies request.name
            (DependencyRange.version request.version)
        else changes
      processRequests manifest operation rest changes
        (check_and_add_adding_package request adding_packages manifest)
    | .upgradeLocked =>
      match manifest.get_locked request.name with
      | none =>
        .error (.upgradingNonLockedPackage request.name)
      | some _ =>
        processRequests manifest operation rest changes
          (check_and_add_adding_package request adding_packages manifest)

/-- From `add_package.rs` (lines 46–150): `add_package_request` — classify
each request, short-circuit to `build_no_resolve` when the adding set is
empty, otherwise run the resolution pass and stage its additions, conflicts
and locked legacy removals before `build_resolve`. -/
def add_package_request (fuel : Nat) (project : UnityProject)
    (env : PackageCollection) (packages : List PackageInfo)
    (operation : AddPackageOperation) (allow_prerelease : Bool) :
    Except AddPackageErr PendingProjectChanges :=
  match processRequests project.manifest operation packages Builder.new [] with
  | .error e => .error e
  | .ok (changes, adding_packages) =>
    if adding_packages.isEmpty then
      .ok changes.build_no_resolve
    else
      match collect_adding_packages fuel project.manifest.dependencies
          project.manifest.all_locked project.unity_version env
          adding_packages allow_prerelease with
      | .error e => .error e
      | .ok result =>
        let changes := result.new_packages.foldl
          (fun c p => c.install_to_locked p) changes
        let changes := result.conflicts.foldl
          (fun c pc => c.conflict_multiple pc.1 pc.2) changes
        let changes := (result.found_legacy_packages.filter
            (fun name => project.manifest.is_locked name)).foldl
          (fun c name => c.remove name RemoveReason.legacy) changes
        .ok (changes.build_resolve project)

/-! ## Unity installation management (`environment/unity_management.rs`) -/

/-- From `unity_management.rs`: a Unity installation record as read from the
database, with its version string already parsed (`UnityInstallation::version`
parses the stored string, so an unparseable record yields `none`). -/
structure UnityInstallation where
  path : String
  version : Option UnityVersion
  loaded_from_hub : Bool
deriving DecidableEq, Repr

/-- From `unity_management.rs` (lines 99–130): the scan loop of
`find_most_suitable_unity`, threading the three preference slots
(`revision_match`, `minor_match`, `major_match`). -/
def findSuitableLoop (expected : UnityVersion) :
    List UnityInstallation → Option UnityInstallation →
    Option UnityInstallation → Option UnityInstallation →
    Option UnityInstallation
  | [], revision_match, minor_match, major_match =>
    (revision_match.or minor_match).or major_match
  | unity :: rest, revision_match, minor_match, major_match =>
    match unity.version with
    | none => findSuitableLoop expected rest revision_match minor_match
        major_match
    | some version =>
      if version = expected then some unity
      else if version.major = expected.major then
        if version.minor = expected.minor then
          if version.revision = expected.revision then
            findSuitableLoop expected rest (some unity) minor_match major_match
          else
            findSuitableLoop expected rest revision_match (some unity)
              major_match
        else
          findSuitableLoop expected rest revision_match minor_match (some unity)
      else
        findSuitableLoop expected rest revision_match minor_match major_match

/-- From `unity_management.rs` (lines 99–130): `find_most_suitable_unity`
over the database's installation list. -/
def find_most_suitable_unity (installations : List UnityInstallation)
    (expected : UnityVersion) : Option UnityInstallation :=
  findSuitableLoop expected installations none none none

/-- Whether an installation's parsed version satisfies a check; an
installation without a parseable version never matches. -/
def versionMatches (check : UnityVersion → Bool) (u : UnityInstallation) :
    Bool :=
  match u.version with
  | some v => check v
  | none => false

/-- The last element of the list satisfying the predicate (the "last-scanned"
matching installation), if any. -/
def lastMatching (p : UnityInstallation → Bool) :
    List UnityInstallation → Option UnityInstallation
  | [] => none
  | u :: rest => (lastMatching p rest).or (if p u then some u else none)

/-- Reference selection function written from the claimed behaviour of
`find_most_suitable_unity`: the first installation parsing exactly to the
expected version; otherwise, by decreasing preference, the last-scanned
installation agreeing on major, minor and revision, else on major and minor,
else on major alone. -/
def find_most_suitable_unity_claim (installations : List UnityInstallation)
    (expected : UnityVersion) : Option UnityInstallation :=
  match installations.find? (fun u => u.version == some expected) with
  | some u => some u
  | none =>
    (lastMatching (versionMatches fun v =>
        v.major == expected.major && v.minor == expected.minor &&
        v.revision == expected.revision) installations).or
      ((lastMatching (versionMatches fun v =>
          v.major == expected.major && v.minor == expected.minor)
            installations).or
        (lastMatching (versionMatches fun v => v.major == expected.major)
          installations))

/-- Agreement with the expected version on major, minor and revision. -/
def tripleQ (expected : UnityVersion) : UnityInstallation → Bool :=
  versionMatches fun v =>
    v.major == expected.major && v.minor == expected.minor &&
      v.revision == expected.revision

/-- Agreement on major and minor with a differing revision — the condition
under which the scan loop fills its `minor_match` slot. -/
def minorQ (expected : UnityVersion) : UnityInstallation → Bool :=
  versionMatches fun v =>
    v.major == expected.major && v.minor == expected.minor &&
      !(v.revision == expected.revision)

/-- Agreement on major with a differing minor — the condition under which
the scan loop fills its `major_match` slot. -/
def majorQ (expected : UnityVersion) : UnityInstallation → Bool :=
  versionMatches fun v =>
    v.major == expected.major && !(v.minor == expected.minor)

/-- From `unity_management.rs`: a raw database record of a Unity
installation.  The version is kept structurally; its string serialisation is
owned by the external database collaborator. -/
structure DbUnityVersion where
  path : String
  version : UnityVersion
  loaded_from_hub : Bool
deriving DecidableEq, Repr

/-- The error kinds of `std::io::Error` used by `add_unity_installation`. -/
inductive IoErrorKind where
  | alreadyExists
  | timedOut
  | invalidInput
  | other
deriving DecidableEq, Repr

/-- An I/O error: a kind plus its message. -/
structure IoError where
  kind : IoErrorKind
  message : String
deriving DecidableEq, Repr

/-- The outcome of probing the Unity editor executable (running it with
`-batchmode ... -logfile` under a ten-second timeout): the probe may time
out, fail to spawn, or exit with a status and captured standard output.  The
probe itself is host I/O, supplied to the embedding as data. -/
inductive ProbeResult where
  | timedOut
  | spawnFailed (err : IoError)
  | exited (success : Bool) (stdout : String)
deriving DecidableEq, Repr

/-- From `unity_management.rs` (lines 24–91): `add_unity_installation` —
reject a path already present in the database, then inspect the probe
outcome, take the captured output up to the first space, trim it, parse it as
a Unity version, and insert the new record.  Returns the result together
with the database state after the call.  The version parser is external
(`UnityVersion::parse` is not part of this module) and is passed in; standard
output is modelled as text, so the UTF-8 validation step of the source cannot
fail here. -/
def add_unity_installation (db : List DbUnityVersion) (path : String)
    (probe : ProbeResult) (parseVersion : String → Option UnityVersion) :
    Except IoError UnityVersion × List DbUnityVersion :=
  if db.any (fun x => x.path == path) then
    (.error ⟨.alreadyExists,
      "unity installation at " ++ path ++ " already exists"⟩, db)
  else
    match probe with
    | .timedOut => (.error ⟨.timedOut, "timed out"⟩, db)
    | .spawnFailed err => (.error err, db)
    | .exited success stdout =>
      if !success then
        (.error ⟨.invalidInput, "invalid unity installation at " ++ path⟩, db)
      else
        let versionStr := (stdout.takeWhile (fun c => c ≠ ' ')).trim
        match parseVersion versionStr with
        | none => (.error ⟨.invalidInput, "invalid version: " ++ versionStr⟩, db)
        | some version =>
          (.ok version, db ++ [⟨path, version, false⟩])

/-! ## Concrete instances used as witnesses -/

/-- Version 1.0.0. -/
def exVer100 : Version := ⟨1, 0, 0, none⟩

/-- Version 1.2.0. -/
def exVer120 : Version := ⟨1, 2, 0, none⟩

/-- Version 2.0.0. -/
def exVer200 : Version := ⟨2, 0, 0, none⟩

/-- A dependency-free package A at 1.0.0. -/
def exPkgA : PackageInfo := ⟨"A", exVer100, [], []⟩

/-- A locked entry at 1.0.0 with no dependencies. -/
def exLockedA : LockedDependency := ⟨exVer100, []⟩

/-- Manifest with A locked at 1.0.0 but not declared in `dependencies`. -/
def exManifestLockedOnly : VpmManifest := ⟨[], [("A", exLockedA)]⟩

/-- Project over `exManifestLockedOnly`. -/
def exProjectLockedOnly : UnityProject := ⟨exManifestLockedOnly, none⟩

/-- Manifest with A both declared at exactly 1.0.0 and locked at 1.0.0. -/
def exManifestDeclaredLocked : VpmManifest :=
  ⟨[("A", DependencyRange.version exVer100)], [("A", exLockedA)]⟩

/-- Project over `exManifestDeclaredLocked`. -/
def exProjectDeclaredLocked : UnityProject := ⟨exManifestDeclaredLocked, none⟩

/-- Project with an empty manifest. -/
def exProjectEmpty : UnityProject := ⟨⟨[], []⟩, none⟩

/-- A package source with no packages at all. -/
def exEnvEmpty : PackageCollection := ⟨fun _ _ _ _ => []⟩

/-- Package B at 1.2.0 that supersedes the legacy name OldB. -/
def exPkgB : PackageInfo := ⟨"B", exVer120, [], ["OldB"]⟩

/-- Package A at 1.0.0 depending on B at caret 1.0.0. -/
def exPkgADepB : PackageInfo :=
  ⟨"A", exVer100, [("B", DependencyRange.caret exVer100)], []⟩

/-- A package source able to serve only B. -/
def exEnvB : PackageCollection :=
  ⟨fun n _ _ _ => if n = "B" then [exPkgB] else []⟩

/-- Project with the legacy name OldB locked. -/
def exProjectOldB : UnityProject := ⟨⟨[], [("OldB", ⟨exVer100, []⟩)]⟩, none⟩

/-- Candidate Z at 1.0.0. -/
def exPkgZ1 : PackageInfo := ⟨"Z", exVer100, [], []⟩

/-- Candidate Z at 2.0.0. -/
def exPkgZ2 : PackageInfo := ⟨"Z", exVer200, [], []⟩

/-- Package X requiring Z at exactly 1.0.0. -/
def exPkgX : PackageInfo :=
  ⟨"X", exVer100, [("Z", DependencyRange.version exVer100)], []⟩

/-- Package Y requiring Z at exactly 2.0.0. -/
def exPkgY : PackageInfo :=
  ⟨"Y", exVer100, [("Z", DependencyRange.version exVer200)], []⟩

/-- A package source serving Z at the exactly requested version. -/
def exEnvZ : PackageCollection :=
  ⟨fun n r _ _ =>
    if n = "Z" then
      match r.as_single_version with
      | some v => if v == exVer100 then [exPkgZ1] else [exPkgZ2]
      | none => []
    else []⟩

/-- Unity 2019.4.31f1. -/
def exUnity2019 : UnityVersion := ⟨2019, 4, 31, 'f', 1⟩

/-- Unity 2022.3.6f1. -/
def exUnity2022 : UnityVersion := ⟨2022, 3, 6, 'f', 1⟩

/-- An installation of Unity 2019.4.31f1. -/
def exInstall2019 : UnityInstallation := ⟨"/unity2019", some exUnity2019, false⟩

/-- A database record for `/unity2019`. -/
def exDbRecord : DbUnityVersion := ⟨"/unity2019", exUnity2019, false⟩

/-! ## Helper lemmas about the request classification loop -/

/-- Membership in the adding set after one `check_and_add_adding_package`
step. -/
theorem check_and_add_mem (request : PackageInfo)
    (adding : List PackageInfo) (manifest : VpmManifest) (p : PackageInfo) :
    p ∈ check_and_add_adding_package request adding manifest ↔
      p ∈ adding ∨ (p = request ∧
        ((manifest.get_locked request.name).map
          (fun locked => Version.lt locked.version request.version)).getD true
          = true) := by
  unfold check_and_add_adding_package
  by_cases h : ((manifest.get_locked request.name).map
      (fun locked => Version.lt locked.version request.version)).getD true
      = true
  · simp [h]
  · simp [h]

/-- Every error produced by the classification loop is an
`upgradingNonLockedPackage` error. -/
theorem processRequests_error_shape (manifest : VpmManifest)
    (operation : AddPackageOperation) :
    ∀ (packages : List PackageInfo) (changes : Builder)
      (adding : List PackageInfo) (e : AddPackageErr),
      processRequests manifest operation packages changes adding = .error e →
      ∃ name, e = .upgradingNonLockedPackage name := by
  intro packages
  induction packages with
  | nil =>
    intro changes adding e h
    simp [processRequests] at h
  | cons request rest ih =>
    intro changes adding e h
    cases operation with
    | installToDependencies =>
      simp only [processRequests] at h
      exact ih _ _ _ h
    | upgradeLocked =>
      simp only [processRequests] at h
      cases hg : manifest.get_locked request.name with
      | none =>
        rw [hg] at h
        simp only [Except.error.injEq] at h
        exact ⟨request.name, h.symm⟩
      | some locked =>
        rw [hg] at h
        exact ih _ _ _ h

/-- With `UpgradeLocked`, a requested package absent from `locked` makes the
classification loop fail with `upgradingNonLockedPackage` for a name that is
itself requested and not locked. -/
theorem processRequests_upgrade_first_error (manifest : VpmManifest) :
    ∀ (packages : List PackageInfo) (changes : Builder)
      (adding : List PackageInfo),
      (∃ p ∈ packages, manifest.get_locked p.name = none) →
      ∃ name, manifest.get_locked name = none ∧
        name ∈ packages.map PackageInfo.name ∧
        processRequests manifest .upgradeLocked packages changes adding =
          .error (.upgradingNonLockedPackage name) := by
  intro packages
  induction packages with
  | nil =>
    intro changes adding h
    rcases h with ⟨p, hp, _⟩
    simp at hp
  | cons request rest ih =>
    intro changes adding h
    cases hg : manifest.get_locked request.name with
    | none =>
      refine ⟨request.name, hg, by simp, ?_⟩
      simp [processRequests, hg]
    | some locked =>
      have h' : ∃ q ∈ rest, manifest.get_locked q.name = none := by
        rcases h with ⟨q, hq, hqn⟩
        rcases List.mem_cons.mp hq with rfl | hq'
        · rw [hg] at hqn
          exact absurd hqn (by simp)
        · exact ⟨q, hq', hqn⟩
      rcases ih changes
          (check_and_add_adding_package request adding manifest) h' with
        ⟨name, h1, h2, h3⟩
      refine ⟨name, h1, ?_, ?_⟩
      · simp only [List.map_cons, List.mem_cons]
        exact Or.inr h2
      · simp only [processRequests, hg]
        exact h3

/-- The classification loop succeeds whenever the operation is
`InstallToDependencies` or every requested name is locked. -/
theorem processRequests_ok (manifest : VpmManifest)
    (operation : AddPackageOperation) :
    ∀ (packages : List PackageInfo) (changes : Builder)
      (adding : List PackageInfo),
      (operation = .installToDependencies ∨
        ∀ p ∈ packages, (manifest.get_locked p.name).isSome = true) →
      ∃ changes' adding',
        processRequests manifest operation packages changes adding =
          .ok (changes', adding') := by
  intro packages
  induction packages with
  | nil =>
    intro changes adding _
    exact ⟨changes, adding, rfl⟩
  | cons request rest ih =>
    intro changes adding h
    cases operation with
    | installToDependencies =>
      rcases ih (if shouldAddToDependencies manifest request then
            changes.add_to_dependencies request.name
              (DependencyRange.version request.version)
          else changes)
          (check_and_add_adding_package request adding manifest)
          (Or.inl rfl) with ⟨c', a', hrec⟩
      exact ⟨c', a', by simpa [processRequests] using hrec⟩
    | upgradeLocked =>
      rcases h with h | h
      · exact absurd h (by simp)
      · have hq := h request (by simp)
        cases hg : manifest.get_locked request.name with
        | none => rw [hg] at hq; simp at hq
        | some locked =>
          have h' : ∀ p ∈ rest, (manifest.get_locked p.name).isSome = true :=
            fun p hp => h p (List.mem_cons_of_mem _ hp)
          rcases ih changes
              (check_and_add_adding_package request adding manifest)
              (Or.inr h') with ⟨c', a', hrec⟩
          refine ⟨c', a', ?_⟩
          simp only [processRequests, hg]
          exact hrec

/-- Membership in the adding set produced by the classification loop. -/
theorem processRequests_adding_mem (manifest : VpmManifest)
    (operation : AddPackageOperation) :
    ∀ (packages : List PackageInfo) (changes : Builder)
      (adding : List PackageInfo) (changes' : Builder)
      (adding' : List PackageInfo),
      processRequests manifest operation packages changes adding =
        .ok (changes', adding') →
      ∀ p, p ∈ adding' ↔ p ∈ adding ∨ (p ∈ packages ∧
        ((manifest.get_locked p.name).map
          (fun locked => Version.lt locked.version p.version)).getD true
          = true) := by
  intro packages
  induction packages with
  | nil =>
    intro changes adding changes' adding' h p
    simp only [processRequests, Except.ok.injEq, Prod.mk.injEq] at h
    rw [← h.2]
    simp
  | cons request rest ih =>
    intro changes adding changes' adding' h p
    have step :
        ∀ changesMid,
          processRequests manifest operation rest changesMid
              (check_and_add_adding_package request adding manifest) =
            .ok (changes', adding') →
          (p ∈ adding' ↔ p ∈ adding ∨ (p ∈ request :: rest ∧
            ((manifest.get_locked p.name).map
              (fun locked => Version.lt locked.version p.version)).getD true
              = true)) := by
      intro changesMid hmid
      rw [ih _ _ _ _ hmid p, check_and_add_mem]
      constructor
      · rintro ((hp | ⟨rfl, hc⟩) | ⟨hp, hc⟩)
        · exact Or.inl hp
        · exact Or.inr ⟨List.mem_cons_self _ _, hc⟩
        · exact Or.inr ⟨List.mem_cons_of_mem _ hp, hc⟩
      · rintro (hp | ⟨hp, hc⟩)
        · exact Or.inl (Or.inl hp)
        · rcases List.mem_cons.mp hp with rfl | hp'
          · exact Or.inl (Or.inr ⟨rfl, hc⟩)
          · exact Or.inr ⟨hp', hc⟩
    cases operation with
    | installToDependencies =>
      simp only [processRequests] at h
      exact step _ h
    | upgradeLocked =>
      simp only [processRequests] at h
      cases hg : manifest.get_locked request.name with
      | none => rw [hg] at h; simp at h
      | some locked =>
        rw [hg] at h
        exact step _ h

/-- The code's adding-set condition restated against the spec's "no locked
version ≥ the requested version". -/
theorem adding_cond_iff (manifest : VpmManifest) (p : PackageInfo) :
    (((manifest.get_locked p.name).map
        (fun locked => Version.lt locked.version p.version)).getD true
      = true) ↔
      ¬ ∃ locked, manifest.get_locked p.name = some locked ∧
        Version.le p.version locked.version = true := by
  cases hg : manifest.get_locked p.name with
  | none => simp
  | some locked =>
    simp only [Option.map_some', Option.getD_some]
    rw [Version.lt_iff_not_le]
    simp

/-! ## C1: the UpgradeLocked guard -/

/-- C1: with operation `UpgradeLocked`, if any requested package's name has
no entry in `locked`, `add_package_request` fails with
`UpgradingNonLockedPackage` carrying a requested, non-locked name — for
every package source and every fuel bound, so the resolution algorithm is
never consulted and no plan is returned. -/
theorem upgrade_non_locked_fails (project : UnityProject)
    (packages : List PackageInfo) (allow_prerelease : Bool)
    (h : ∃ p ∈ packages, project.manifest.get_locked p.name = none) :
    ∃ name, project.manifest.get_locked name = none ∧
      name ∈ packages.map PackageInfo.name ∧
      ∀ fuel env,
        add_package_request fuel project env packages .upgradeLocked
          allow_prerelease = .error (.upgradingNonLockedPackage name) := by
  rcases processRequests_upgrade_first_error project.manifest packages
      Builder.new [] h with ⟨name, h1, h2, h3⟩
  refine ⟨name, h1, h2, fun fuel env => ?_⟩
  simp [add_package_request, h3]

/-- Witness for C1 at a concrete input: upgrading A in an empty project. -/
theorem upgrade_non_locked_fails_witness :
    ∃ name, exProjectEmpty.manifest.get_locked name = none ∧
      name ∈ [exPkgA].map PackageInfo.name ∧
      ∀ fuel env,
        add_package_request fuel exProjectEmpty env [exPkgA] .upgradeLocked
          false = .error (.upgradingNonLockedPackage name) :=
  upgrade_non_locked_fails exProjectEmpty [exPkgA] false
    ⟨exPkgA, by decide, by decide⟩

/-! ## C2: membership in the adding set -/

/-- C2: under either operation mode (whenever that mode can classify every
request: always for `InstallToDependencies`, and when every requested name
is locked for `UpgradeLocked`), a requested package is placed in the adding
set passed to the resolution algorithm if and only if the manifest has no
locked entry for its name whose version is at least the requested version;
when such an entry exists, the request is skipped without error. -/
theorem adding_set_membership (manifest : VpmManifest)
    (operation : AddPackageOperation) (packages : List PackageInfo)
    (h : operation = .installToDependencies ∨
      ∀ p ∈ packages, (manifest.get_locked p.name).isSome = true) :
    ∃ changes adding,
      processRequests manifest operation packages Builder.new [] =
        .ok (changes, adding) ∧
      ∀ p, p ∈ adding ↔ (p ∈ packages ∧
        ¬ ∃ locked, manifest.get_locked p.name = some locked ∧
          Version.le p.version locked.version = true) := by
  rcases processRequests_ok manifest operation packages Builder.new [] h with
    ⟨changes, adding, hok⟩
  refine ⟨changes, adding, hok, fun p => ?_⟩
  rw [processRequests_adding_mem manifest operation packages Builder.new []
    changes adding hok p]
  rw [← adding_cond_iff]
  simp

/-- Witness for C2 at a concrete input: requesting A at 1.0.0 while A is
locked at 1.0.0 leaves the adding set governed by the stated condition. -/
theorem adding_set_membership_witness :
    ∃ changes adding,
      processRequests exManifestLockedOnly .installToDependencies [exPkgA]
        Builder.new [] = .ok (changes, adding) ∧
      ∀ p, p ∈ adding ↔ (p ∈ [exPkgA] ∧
        ¬ ∃ locked, exManifestLockedOnly.get_locked p.name = some locked ∧
          Version.le p.version locked.version = true) :=
  adding_set_membership exManifestLockedOnly .installToDependencies [exPkgA]
    (Or.inl rfl)

/-! ## C3: the InstallToDependencies no-op case -/

/-- Counterexample to C3 as stated: package A is locked at 1.0.0 — at least
the requested version — yet, because A is not declared in `dependencies`,
the returned plan stages a top-level dependency addition, so its
dependency-additions are not empty. -/
theorem install_locked_not_declared_stages_dependency :
    (∃ locked, exManifestLockedOnly.get_locked exPkgA.name = some locked ∧
      Version.le exPkgA.version locked.version = true) ∧
    add_package_request 10 exProjectLockedOnly exEnvEmpty [exPkgA]
        .installToDependencies false =
      .ok ⟨[("A", DependencyRange.version exVer100)], [], [], []⟩ ∧
    ([("A", DependencyRange.version exVer100)] :
      List (String × DependencyRange)) ≠ [] := by
  refine ⟨⟨exLockedA, by decide, by decide⟩, ?_, by decide⟩
  rfl

/-- If every requested package has a single-version declaration at least its
requested version and a locked entry at least its requested version, the
classification loop changes nothing. -/
theorem processRequests_install_noop (manifest : VpmManifest) :
    ∀ (packages : List PackageInfo) (changes : Builder)
      (adding : List PackageInfo),
      (∀ p ∈ packages, ∃ locked,
        manifest.get_locked p.name = some locked ∧
        Version.le p.version locked.version = true) →
      (∀ p ∈ packages, ∃ v,
        (manifest.get_dependency p.name).bind DependencyRange.as_single_version
          = some v ∧ Version.le p.version v = true) →
      processRequests manifest .installToDependencies packages changes adding =
        .ok (changes, adding) := by
  intro packages
  induction packages with
  | nil => intro changes adding _ _; rfl
  | cons request rest ih =>
    intro changes adding hlock hdecl
    rcases hlock request (by simp) with ⟨locked, hg, hle⟩
    rcases hdecl request (by simp) with ⟨v, hb, hv⟩
    have hltv : Version.lt v request.version = false := by
      rw [Bool.eq_false_iff]
      intro hc
      exact (Version.lt_iff_not_le v request.version).mp hc hv
    have hltl : Version.lt locked.version request.version = false := by
      rw [Bool.eq_false_iff]
      intro hc
      exact (Version.lt_iff_not_le locked.version request.version).mp hc hle
    have hS : shouldAddToDependencies manifest request = false := by
      simp [shouldAddToDependencies, hb, hltv]
    have hC : check_and_add_adding_package request adding manifest = adding := by
      simp [check_and_add_adding_package, hg, hltl]
    simp only [processRequests, hS, Bool.false_eq_true, if_false, hC]
    exact ih changes adding (fun p hp => hlock p (List.mem_cons_of_mem _ hp))
      (fun p hp => hdecl p (List.mem_cons_of_mem _ hp))

/-- C3 amended: for an `InstallToDependencies` request in which every
requested package is already locked at a version at least the requested one
AND is already declared in `dependencies` at a single-version range at least
the requested one, the plan has empty locked-additions and empty
dependency-additions. -/
theorem install_locked_and_declared_noop (fuel : Nat)
    (project : UnityProject) (env : PackageCollection)
    (packages : List PackageInfo) (allow_prerelease : Bool)
    (hlock : ∀ p ∈ packages, ∃ locked,
      project.manifest.get_locked p.name = some locked ∧
      Version.le p.version locked.version = true)
    (hdecl : ∀ p ∈ packages, ∃ v,
      (project.manifest.get_dependency p.name).bind
        DependencyRange.as_single_version = some v ∧
      Version.le p.version v = true) :
    add_package_request fuel project env packages .installToDependencies
      allow_prerelease = .ok ⟨[], [], [], []⟩ := by
  have h := processRequests_install_noop project.manifest packages
    Builder.new [] hlock hdecl
  simp only [add_package_request, h]
  simp [Builder.build_no_resolve, Builder.new]

/-- Witness for the amended C3 at a concrete input: A declared at exactly
1.0.0 and locked at 1.0.0, requested at 1.0.0. -/
theorem install_locked_and_declared_noop_witness :
    add_package_request 10 exProjectDeclaredLocked exEnvEmpty [exPkgA]
      .installToDependencies false = .ok ⟨[], [], [], []⟩ :=
  install_locked_and_declared_noop 10 exProjectDeclaredLocked exEnvEmpty
    [exPkgA] false
    (by intro p hp; rw [List.mem_singleton] at hp; subst hp
        exact ⟨exLockedA, by decide, by decide⟩)
    (by intro p hp; rw [List.mem_singleton] at hp; subst hp
        exact ⟨exVer100, by decide, by decide⟩)

/-! ## C4: staging of top-level dependency declarations -/

/-- C4: an `InstallToDependencies` request stages a top-level declaration at
exactly the requested version precisely when the existing declaration is
absent, is not a single-version range, or is a single-version range strictly
below the requested version; when a single-version declaration at least the
requested version exists, the staged declarations are left unchanged. -/
theorem install_dependency_staging (manifest : VpmManifest)
    (request : PackageInfo) (changes : Builder)
    (adding : List PackageInfo) :
    ∃ changes' adding',
      processRequests manifest .installToDependencies [request] changes adding
        = .ok (changes', adding') ∧
      ((manifest.get_dependency request.name = none ∨
        (∃ range, manifest.get_dependency request.name = some range ∧
          range.as_single_version = none) ∨
        (∃ v, (manifest.get_dependency request.name).bind
            DependencyRange.as_single_version = some v ∧
          Version.lt v request.version = true)) →
        changes'.dependencies = changes.dependencies ++
          [(request.name, DependencyRange.version request.version)]) ∧
      ((∃ v, (manifest.get_dependency request.name).bind
          DependencyRange.as_single_version = some v ∧
        Version.le request.version v = true) →
        changes'.dependencies = changes.dependencies) := by
  by_cases hS : shouldAddToDependencies manifest request = true
  · refine ⟨changes.add_to_dependencies request.name
        (DependencyRange.version request.version),
      check_and_add_adding_package request adding manifest, ?_, ?_, ?_⟩
    · simp [processRequests, hS]
    · intro _
      simp [Builder.add_to_dependencies]
    · rintro ⟨v, hb, hv⟩
      exfalso
      rw [shouldAddToDependencies, hb] at hS
      simp only [Option.map_some', Option.getD_some] at hS
      exact (Version.lt_iff_not_le v request.version).mp hS hv
  · rw [Bool.not_eq_true] at hS
    refine ⟨changes, check_and_add_adding_package request adding manifest,
      ?_, ?_, ?_⟩
    · simp [processRequests, hS]
    · intro hcond
      exfalso
      rcases hcond with hnone | ⟨range, hr, hsingle⟩ | ⟨v, hb, hlt⟩
      · rw [shouldAddToDependencies, hnone] at hS
        simp at hS
      · rw [shouldAddToDependencies, hr] at hS
        simp [hsingle] at hS
      · rw [shouldAddToDependencies, hb] at hS
        simp [hlt] at hS
    · intro _
      rfl

/-- Witness for C4 at a concrete input: A not declared in `dependencies`, so
the declaration at exactly the requested version is staged. -/
theorem install_dependency_staging_witness :
    ∃ changes' adding',
      processRequests exManifestLockedOnly .installToDependencies [exPkgA]
        Builder.new [] = .ok (changes', adding') ∧
      changes'.dependencies = Builder.new.dependencies ++
        [(exPkgA.name, DependencyRange.version exPkgA.version)] := by
  obtain ⟨c, a, h1, h2, _⟩ := install_dependency_staging exManifestLockedOnly
    exPkgA Builder.new []
  exact ⟨c, a, h1, h2 (Or.inl (by decide))⟩

/-! ## C5: the empty-adding-set short circuit -/

/-- C5: when classification leaves the adding set empty, the call succeeds
through the no-resolve finalizer for every package source and fuel bound —
the plan holds exactly the staged top-level dependency edits and empty
locked-additions, removals and conflicts. -/
theorem empty_adding_set_no_resolve (fuel : Nat) (project : UnityProject)
    (env : PackageCollection) (packages : List PackageInfo)
    (operation : AddPackageOperation) (allow_prerelease : Bool)
    (changes : Builder)
    (h : processRequests project.manifest operation packages Builder.new []
      = .ok (changes, [])) :
    add_package_request fuel project env packages operation allow_prerelease
      = .ok ⟨changes.dependencies, [], [], []⟩ := by
  simp [add_package_request, h, Builder.build_no_resolve]

/-- Witness for C5 at a concrete input: requesting A, locked at the same
version, stages only its dependency edit and short-circuits. -/
theorem empty_adding_set_no_resolve_witness :
    add_package_request 7 exProjectLockedOnly exEnvEmpty [exPkgA]
      .installToDependencies false =
      .ok ⟨[("A", DependencyRange.version exVer100)], [], [], []⟩ :=
  empty_adding_set_no_resolve 7 exProjectLockedOnly exEnvEmpty [exPkgA]
    .installToDependencies false
    ⟨[("A", DependencyRange.version exVer100)], [], [], []⟩ rfl

/-! ## Helper lemmas about the resolve path of `add_package_request` -/

/-- The classification loop never stages locked additions, removals or
conflicts. -/
theorem processRequests_builder_extras (manifest : VpmManifest)
    (operation : AddPackageOperation) :
    ∀ (packages : List PackageInfo) (changes : Builder)
      (adding : List PackageInfo) (changes' : Builder)
      (adding' : List PackageInfo),
      processRequests manifest operation packages changes adding =
        .ok (changes', adding') →
      changes'.locked_additions = changes.locked_additions ∧
      changes'.removals = changes.removals ∧
      changes'.conflicts = changes.conflicts := by
  intro packages
  induction packages with
  | nil =>
    intro changes adding changes' adding' h
    simp only [processRequests, Except.ok.injEq, Prod.mk.injEq] at h
    rw [← h.1]
    exact ⟨rfl, rfl, rfl⟩
  | cons request rest ih =>
    intro changes adding changes' adding' h
    cases operation with
    | installToDependencies =>
      simp only [processRequests] at h
      have hmid := ih _ _ _ _ h
      by_cases hS : shouldAddToDependencies manifest request = true
      · rw [hS] at hmid
        simpa [Builder.add_to_dependencies] using hmid
      · rw [Bool.not_eq_true] at hS
        rw [hS] at hmid
        simpa using hmid
    | upgradeLocked =>
      simp only [processRequests] at h
      cases hg : manifest.get_locked request.name with
      | none => rw [hg] at h; simp at h
      | some locked =>
        rw [hg] at h
        exact ih _ _ _ _ h

/-- Every error of the resolution work-queue walk is a
`dependencyNotFound` error. -/
theorem resolveLoop_error_shape (getLocked : String → Option LockedDependency)
    (unity : Option UnityVersion) (env : PackageCollection)
    (allow_prerelease : Bool) :
    ∀ (fuel : Nat) (queue : List QueueItem) (st : ResolveState)
      (e : AddPackageErr),
      resolveLoop getLocked unity env allow_prerelease fuel queue st =
        .error e →
      ∃ name, e = .dependencyNotFound name := by
  intro fuel
  induction fuel with
  | zero =>
    intro queue st e h
    simp [resolveLoop] at h
  | succ fuel ih =>
    intro queue st e h
    cases queue with
    | nil => simp [resolveLoop] at h
    | cons item rest =>
      simp only [resolveLoop] at h
      split at h
      · split at h
        · exact ih _ _ _ h
        · exact ih _ _ _ h
      · split at h
        · exact ih _ _ _ h
        · split at h
          · simp only [Except.error.injEq] at h
            exact ⟨item.name, h.symm⟩
          · exact ih _ _ _ h

/-- Destructor for a successful `Except.map`. -/
theorem exceptMapOk {ε α β : Type} (f : α → β) (x : Except ε α) (b : β)
    (h : x.map f = .ok b) : ∃ a, x = .ok a ∧ b = f a := by
  cases x with
  | error e => simp [Except.map] at h
  | ok a =>
    simp only [Except.map, Except.ok.injEq] at h
    exact ⟨a, rfl, h.symm⟩

/-- Every error of `collect_adding_packages` is a `dependencyNotFound`
error. -/
theorem collect_error_shape (fuel : Nat)
    (dependencies : List (String × DependencyRange))
    (locked : List (String × LockedDependency))
    (unity : Option UnityVersion) (env : PackageCollection)
    (adding_packages : List PackageInfo) (allow_prerelease : Bool)
    (e : AddPackageErr)
    (h : collect_adding_packages fuel dependencies locked unity env
      adding_packages allow_prerelease = .error e) :
    ∃ name, e = .dependencyNotFound name := by
  simp only [collect_adding_packages] at h
  cases hres : resolveLoop (fun name => locked.lookup name) unity env
      allow_prerelease fuel
      (adding_packages.flatMap
        (fun p => p.vpm_dependencies.map (fun d => QueueItem.mk d.1 d.2 p.name)))
      ⟨adding_packages, [], []⟩ with
  | error e' =>
    rw [hres] at h
    simp only [Except.map, Except.error.injEq] at h
    subst h
    exact resolveLoop_error_shape _ _ _ _ _ _ _ _ hres
  | ok st =>
    rw [hres] at h
    simp [Except.map] at h

/-- The legacy names reported by the resolution pass are exactly the legacy
names declared by its newly chosen candidates. -/
theorem collect_found_legacy_iff (fuel : Nat)
    (dependencies : List (String × DependencyRange))
    (locked : List (String × LockedDependency))
    (unity : Option UnityVersion) (env : PackageCollection)
    (adding_packages : List PackageInfo) (allow_prerelease : Bool)
    (result : AddingPackages)
    (h : collect_adding_packages fuel dependencies locked unity env
      adding_packages allow_prerelease = .ok result) :
    ∀ name, name ∈ result.found_legacy_packages ↔
      ∃ p ∈ result.new_packages, name ∈ p.legacy_packages := by
  simp only [collect_adding_packages] at h
  obtain ⟨st, _, hresult⟩ := exceptMapOk _ _ _ h
  subst hresult
  intro name
  simp [List.mem_flatten]

/-- Folding `install_to_locked` appends to the staged locked additions. -/
theorem foldl_install_to_locked (l : List PackageInfo) :
    ∀ b : Builder, l.foldl (fun c p => c.install_to_locked p) b =
      { b with locked_additions := b.locked_additions ++ l } := by
  induction l with
  | nil => intro b; simp
  | cons p rest ih =>
    intro b
    simp only [List.foldl_cons, ih]
    simp [Builder.install_to_locked, List.append_assoc]

/-- Folding `conflict_multiple` appends to the staged conflicts. -/
theorem foldl_conflict_multiple (l : List (String × List String)) :
    ∀ b : Builder, l.foldl (fun c pc => c.conflict_multiple pc.1 pc.2) b =
      { b with conflicts := b.conflicts ++ l } := by
  induction l with
  | nil => intro b; simp
  | cons pc rest ih =>
    intro b
    simp only [List.foldl_cons, ih]
    simp [Builder.conflict_multiple, List.append_assoc]

/-- Folding legacy `remove` appends the tagged names to the staged
removals. -/
theorem foldl_remove_legacy (l : List String) :
    ∀ b : Builder, l.foldl (fun c name => c.remove name RemoveReason.legacy) b
      = { b with removals :=
          b.removals ++ l.map (fun name => (name, RemoveReason.legacy)) } := by
  induction l with
  | nil => intro b; simp
  | cons name rest ih =>
    intro b
    simp only [List.foldl_cons, ih]
    simp [Builder.remove, List.append_assoc]

/-- The resolve path of `add_package_request`, written out: a successful
classification with a non-empty adding set and a successful resolution pass
produce the plan assembled from the staged edits and the pass's report. -/
theorem add_package_request_resolve (fuel : Nat) (project : UnityProject)
    (env : PackageCollection) (packages : List PackageInfo)
    (operation : AddPackageOperation) (allow_prerelease : Bool)
    (changes : Builder) (adding : List PackageInfo)
    (result : AddingPackages)
    (h1 : processRequests project.manifest operation packages Builder.new []
      = .ok (changes, adding))
    (h2 : adding ≠ [])
    (h3 : collect_adding_packages fuel project.manifest.dependencies
      project.manifest.all_locked project.unity_version env adding
      allow_prerelease = .ok result) :
    add_package_request fuel project env packages operation allow_prerelease
      = .ok ⟨changes.dependencies,
          changes.locked_additions ++ result.new_packages,
          changes.removals ++ (result.found_legacy_packages.filter
            (fun name => project.manifest.is_locked name)).map
              (fun name => (name, RemoveReason.legacy)),
          changes.conflicts ++ result.conflicts⟩ := by
  have hne : adding.isEmpty = false := by
    cases adding with
    | nil => exact absurd rfl h2
    | cons a rest => rfl
  simp only [add_package_request, h1, hne, Bool.false_eq_true, if_false, h3]
  rw [foldl_install_to_locked, foldl_conflict_multiple, foldl_remove_legacy]
  rfl

/-! ## C6: all failures abort the whole call -/

/-- C6: every failure aborts the whole call with an error and no plan — a
classification failure (always an `UpgradingNonLockedPackage`) propagates
unchanged, and a resolution failure (always a `DependencyNotFound`, raised
anywhere in the transitive walk) likewise propagates unchanged; being a pure
function of the project, `add_package_request` never modifies the manifest. -/
theorem failures_abort_call (fuel : Nat) (project : UnityProject)
    (env : PackageCollection) (packages : List PackageInfo)
    (operation : AddPackageOperation) (allow_prerelease : Bool) :
    (∀ e, processRequests project.manifest operation packages Builder.new []
        = .error e →
      add_package_request fuel project env packages operation allow_prerelease
        = .error e ∧ ∃ name, e = .upgradingNonLockedPackage name) ∧
    (∀ changes adding e,
      processRequests project.manifest operation packages Builder.new []
        = .ok (changes, adding) →
      adding ≠ [] →
      collect_adding_packages fuel project.manifest.dependencies
        project.manifest.all_locked project.unity_version env adding
        allow_prerelease = .error e →
      add_package_request fuel project env packages operation allow_prerelease
        = .error e ∧ ∃ name, e = .dependencyNotFound name) := by
  constructor
  · intro e h
    constructor
    · simp [add_package_request, h]
    · exact processRequests_error_shape project.manifest operation packages
        Builder.new [] e h
  · intro changes adding e h1 h2 h3
    have hne : adding.isEmpty = false := by
      cases adding with
      | nil => exact absurd rfl h2
      | cons a rest => rfl
    constructor
    · simp [add_package_request, h1, hne, h3]
    · exact collect_error_shape fuel project.manifest.dependencies
        project.manifest.all_locked project.unity_version env adding
        allow_prerelease e h3

/-- Witness for C6 at concrete inputs: an upgrade of a non-locked package
and a missing transitive dependency each abort their call. -/
theorem failures_abort_call_witness :
    (add_package_request 3 exProjectEmpty exEnvEmpty [exPkgA] .upgradeLocked
        false = .error (.upgradingNonLockedPackage "A") ∧
      ∃ name, AddPackageErr.upgradingNonLockedPackage "A" =
        .upgradingNonLockedPackage name) ∧
    (add_package_request 3 exProjectOldB exEnvEmpty [exPkgADepB]
        .installToDependencies false = .error (.dependencyNotFound "B") ∧
      ∃ name, AddPackageErr.dependencyNotFound "B" =
        .dependencyNotFound name) := by
  constructor
  · exact (failures_abort_call 3 exProjectEmpty exEnvEmpty [exPkgA]
      .upgradeLocked false).1 _ rfl
  · exact (failures_abort_call 3 exProjectOldB exEnvEmpty [exPkgADepB]
      .installToDependencies false).2 _ [exPkgADepB] _ rfl (by simp) rfl

/-! ## C7: legacy removals in the successful plan -/

/-- C7: in a successful resolve-path plan, a name appears among the removals
with reason `Legacy` exactly when it is currently locked in the manifest and
the resolution pass reported it as a legacy name — and the pass reports
exactly the legacy names declared by its newly added candidates. -/
theorem legacy_removal_iff (fuel : Nat) (project : UnityProject)
    (env : PackageCollection) (packages : List PackageInfo)
    (operation : AddPackageOperation) (allow_prerelease : Bool)
    (changes : Builder) (adding : List PackageInfo)
    (result : AddingPackages)
    (h1 : processRequests project.manifest operation packages Builder.new []
      = .ok (changes, adding))
    (h2 : adding ≠ [])
    (h3 : collect_adding_packages fuel project.manifest.dependencies
      project.manifest.all_locked project.unity_version env adding
      allow_prerelease = .ok result) :
    ∃ plan,
      add_package_request fuel project env packages operation allow_prerelease
        = .ok plan ∧
      (∀ name, (name, RemoveReason.legacy) ∈ plan.removals ↔
        (project.manifest.is_locked name = true ∧
          name ∈ result.found_legacy_packages)) ∧
      (∀ name, name ∈ result.found_legacy_packages ↔
        ∃ p ∈ result.new_packages, name ∈ p.legacy_packages) := by
  refine ⟨_, add_package_request_resolve fuel project env packages operation
    allow_prerelease changes adding result h1 h2 h3, ?_, ?_⟩
  · intro name
    have hextras := processRequests_builder_extras project.manifest operation
      packages Builder.new [] changes adding h1
    have hrem : changes.removals = [] := hextras.2.1
    simp only [hrem, List.nil_append, List.mem_map, List.mem_filter,
      Prod.mk.injEq]
    constructor
    · rintro ⟨a, ⟨ha, hlocked⟩, rfl, _⟩
      exact ⟨hlocked, ha⟩
    · rintro ⟨hlocked, hmem⟩
      exact ⟨name, ⟨hmem, hlocked⟩, rfl, trivial⟩
  · exact collect_found_legacy_iff fuel project.manifest.dependencies
      project.manifest.all_locked project.unity_version env adding
      allow_prerelease result h3

/-- Witness for C7 at a concrete input: installing A (which pulls in B, a
package superseding the locked legacy name OldB). -/
theorem legacy_removal_iff_witness :
    ∃ plan,
      add_package_request 10 exProjectOldB exEnvB [exPkgADepB]
        .installToDependencies false = .ok plan ∧
      (∀ name, (name, RemoveReason.legacy) ∈ plan.removals ↔
        (exProjectOldB.manifest.is_locked name = true ∧
          name ∈ (⟨[exPkgADepB, exPkgB], [], ["OldB"]⟩ :
            AddingPackages).found_legacy_packages)) ∧
      (∀ name, name ∈ (⟨[exPkgADepB, exPkgB], [], ["OldB"]⟩ :
          AddingPackages).found_legacy_packages ↔
        ∃ p ∈ (⟨[exPkgADepB, exPkgB], [], ["OldB"]⟩ :
          AddingPackages).new_packages, name ∈ p.legacy_packages) :=
  legacy_removal_iff 10 exProjectOldB exEnvB [exPkgADepB]
    .installToDependencies false _ [exPkgADepB]
    ⟨[exPkgADepB, exPkgB], [], ["OldB"]⟩ rfl (by simp) rfl

/-! ## C8: conflicts are recorded, not raised -/

/-- C8: a successful resolution pass — conflicts included — never turns into
an error: the call succeeds, the plan's conflict map is exactly the pass's
conflict report (keyed by dependency name with its requesting package
names), and every package resolved by the pass is still installed by the
same plan. -/
theorem conflicts_not_errors (fuel : Nat) (project : UnityProject)
    (env : PackageCollection) (packages : List PackageInfo)
    (operation : AddPackageOperation) (allow_prerelease : Bool)
    (changes : Builder) (adding : List PackageInfo)
    (result : AddingPackages)
    (h1 : processRequests project.manifest operation packages Builder.new []
      = .ok (changes, adding))
    (h2 : adding ≠ [])
    (h3 : collect_adding_packages fuel project.manifest.dependencies
      project.manifest.all_locked project.unity_version env adding
      allow_prerelease = .ok result) :
    ∃ plan,
      add_package_request fuel project env packages operation allow_prerelease
        = .ok plan ∧
      plan.conflicts = result.conflicts ∧
      plan.locked_additions = result.new_packages := by
  refine ⟨_, add_package_request_resolve fuel project env packages operation
    allow_prerelease changes adding result h1 h2 h3, ?_, ?_⟩
  · have hextras := processRequests_builder_extras project.manifest operation
      packages Builder.new [] changes adding h1
    simp [hextras.2.2, Builder.new]
  · have hextras := processRequests_builder_extras project.manifest operation
      packages Builder.new [] changes adding h1
    simp [hextras.1, Builder.new]

/-- Witness for C8 at a concrete input: X and Y request incompatible
versions of Z; the call still succeeds, records the conflict and installs
all resolved packages. -/
theorem conflicts_not_errors_witness :
    ∃ plan,
      add_package_request 10 exProjectEmpty exEnvZ [exPkgX, exPkgY]
        .installToDependencies false = .ok plan ∧
      plan.conflicts = [("Z", ["X", "Y"])] ∧
      plan.locked_additions = [exPkgX, exPkgY, exPkgZ1] :=
  conflicts_not_errors 10 exProjectEmpty exEnvZ [exPkgX, exPkgY]
    .installToDependencies false _ [exPkgX, exPkgY]
    ⟨[exPkgX, exPkgY, exPkgZ1], [("Z", ["X", "Y"])], []⟩ rfl (by simp) rfl

/-! ## Helper lemmas for the Unity installation scan -/

theorem optionOrNone {α : Type} (a : Option α) : a.or none = a := by
  cases a <;> rfl

theorem optionNoneOr {α : Type} (a : Option α) : (Option.none).or a = a := rfl

theorem optionOrAssoc {α : Type} (a b c : Option α) :
    (a.or b).or c = a.or (b.or c) := by
  cases a <;> rfl

/-- An `or` whose left side is already forced to `some` absorbs anything to
its right. -/
theorem optionOrSomeCancel {α : Type} (a : Option α) (x : α) (r : Option α) :
    (a.or (some x)).or r = a.or (some x) := by
  cases a <;> rfl

theorem lastMatching_cons_pos (p : UnityInstallation → Bool)
    (u : UnityInstallation) (rest : List UnityInstallation)
    (h : p u = true) :
    lastMatching p (u :: rest) = (lastMatching p rest).or (some u) := by
  simp [lastMatching, h]

theorem lastMatching_cons_neg (p : UnityInstallation → Bool)
    (u : UnityInstallation) (rest : List UnityInstallation)
    (h : p u = false) :
    lastMatching p (u :: rest) = lastMatching p rest := by
  simp [lastMatching, h, optionOrNone]

theorem lastMatching_eq_none_iff (p : UnityInstallation → Bool) :
    ∀ l : List UnityInstallation,
      lastMatching p l = none ↔ ∀ u ∈ l, p u = false := by
  intro l
  induction l with
  | nil => simp [lastMatching]
  | cons u rest ih =>
    cases hu : p u with
    | true =>
      rw [lastMatching_cons_pos p u rest hu]
      constructor
      · intro h
        cases hrest : lastMatching p rest <;> rw [hrest] at h <;> simp at h
      · intro h
        exact absurd (h u (by simp)) (by simp [hu])
    | false =>
      rw [lastMatching_cons_neg p u rest hu, ih]
      constructor
      · intro h v hv
        rcases List.mem_cons.mp hv with rfl | hv'
        · exact hu
        · exact h v hv'
      · intro h v hv
        exact h v (List.mem_cons_of_mem _ hv)

theorem lastMatching_congr (p q : UnityInstallation → Bool) :
    ∀ l : List UnityInstallation, (∀ u ∈ l, p u = q u) →
      lastMatching p l = lastMatching q l := by
  intro l
  induction l with
  | nil => intro _; rfl
  | cons u rest ih =>
    intro h
    have hu : p u = q u := h u (by simp)
    have hrest := ih (fun v hv => h v (List.mem_cons_of_mem _ hv))
    simp [lastMatching, hu, hrest]

/-- The scan loop of `find_most_suitable_unity`, characterised: an exact
match returns first-found; otherwise each preference slot holds the
last-scanned installation of its (mutually exclusive) match class, falling
back to the slot's accumulator. -/
theorem findSuitableLoop_invariant (expected : UnityVersion) :
    ∀ (l : List UnityInstallation) (r m M : Option UnityInstallation),
      findSuitableLoop expected l r m M =
        match l.find? (fun u => u.version == some expected) with
        | some u => some u
        | none =>
          ((lastMatching (tripleQ expected) l).or r).or
            (((lastMatching (minorQ expected) l).or m).or
              ((lastMatching (majorQ expected) l).or M)) := by
  intro l
  induction l with
  | nil =>
    intro r m M
    simp only [findSuitableLoop, List.find?_nil, lastMatching]
    rw [optionNoneOr, optionNoneOr, optionNoneOr, optionOrAssoc]
  | cons u rest ih =>
    intro r m M
    cases hv : u.version with
    | none =>
      have hpred : (u.version == some expected) = false := by
        rw [hv]; rfl
      have ht : tripleQ expected u = false := by
        simp [tripleQ, versionMatches, hv]
      have hm : minorQ expected u = false := by
        simp [minorQ, versionMatches, hv]
      have hM : majorQ expected u = false := by
        simp [majorQ, versionMatches, hv]
      simp only [findSuitableLoop, hv]
      rw [ih, List.find?_cons_of_neg _ (by simp [hpred]),
        lastMatching_cons_neg _ _ _ ht, lastMatching_cons_neg _ _ _ hm,
        lastMatching_cons_neg _ _ _ hM]
    | some v =>
      by_cases hexact : v = expected
      · have hpred : (u.version == some expected) = true := by
          rw [hv]; simp [hexact]
        simp only [findSuitableLoop, hv, if_pos hexact]
        have hfind : List.find? (fun w => w.version == some expected)
            (u :: rest) = some u := by
          simp [List.find?_cons, hpred]
        rw [hfind]
      · have hpred : (u.version == some expected) = false := by
          rw [hv]; simp [hexact]
        by_cases hmaj : v.major = expected.major
        · by_cases hmin : v.minor = expected.minor
          · by_cases hrev : v.revision = expected.revision
            · have ht : tripleQ expected u = true := by
                simp [tripleQ, versionMatches, hv, hmaj, hmin, hrev]
              have hm : minorQ expected u = false := by
                simp [minorQ, versionMatches, hv, hrev]
              have hM : majorQ expected u = false := by
                simp [majorQ, versionMatches, hv, hmin]
              simp only [findSuitableLoop, hv, if_neg hexact, if_pos hmaj,
                if_pos hmin, if_pos hrev]
              rw [ih, List.find?_cons_of_neg _ (by simp [hpred]),
                lastMatching_cons_pos _ _ _ ht,
                lastMatching_cons_neg _ _ _ hm,
                lastMatching_cons_neg _ _ _ hM]
              cases hfind : List.find?
                  (fun w => w.version == some expected) rest with
              | some w => simp [hfind]
              | none => simp [hfind, optionOrSomeCancel]
            · have ht : tripleQ expected u = false := by
                simp [tripleQ, versionMatches, hv, hrev]
              have hm : minorQ expected u = true := by
                simp [minorQ, versionMatches, hv, hmaj, hmin, hrev]
              have hM : majorQ expected u = false := by
                simp [majorQ, versionMatches, hv, hmin]
              simp only [findSuitableLoop, hv, if_neg hexact, if_pos hmaj,
                if_pos hmin, if_neg hrev]
              rw [ih, List.find?_cons_of_neg _ (by simp [hpred]),
                lastMatching_cons_neg _ _ _ ht,
                lastMatching_cons_pos _ _ _ hm,
                lastMatching_cons_neg _ _ _ hM]
              cases hfind : List.find?
                  (fun w => w.version == some expected) rest with
              | some w => simp [hfind]
              | none => simp [hfind, optionOrSomeCancel]
          · have ht : tripleQ expected u = false := by
              simp [tripleQ, versionMatches, hv, hmin]
            have hm : minorQ expected u = false := by
              simp [minorQ, versionMatches, hv, hmin]
            have hM : majorQ expected u = true := by
              simp [majorQ, versionMatches, hv, hmaj, hmin]
            simp only [findSuitableLoop, hv, if_neg hexact, if_pos hmaj,
              if_neg hmin]
            rw [ih, List.find?_cons_of_neg _ (by simp [hpred]),
              lastMatching_cons_neg _ _ _ ht,
              lastMatching_cons_neg _ _ _ hm,
              lastMatching_cons_pos _ _ _ hM]
            cases hfind : List.find?
                (fun w => w.version == some expected) rest with
            | some w => simp [hfind]
            | none => simp [hfind, optionOrSomeCancel]
        · have ht : tripleQ expected u = false := by
            simp [tripleQ, versionMatches, hv, hmaj]
          have hm : minorQ expected u = false := by
            simp [minorQ, versionMatches, hv, hmaj]
          have hM : majorQ expected u = false := by
            simp [majorQ, versionMatches, hv, hmaj]
          simp only [findSuitableLoop, hv, if_neg hexact, if_neg hmaj]
          rw [ih, List.find?_cons_of_neg _ (by simp [hpred]),
            lastMatching_cons_neg _ _ _ ht,
            lastMatching_cons_neg _ _ _ hm,
            lastMatching_cons_neg _ _ _ hM]

/-- When an installation is no triple match, the exclusive
major-minor-only class agrees with the inclusive major-minor class. -/
theorem minorQ_eq_of_triple_false (expected : UnityVersion)
    (u : UnityInstallation) (h : tripleQ expected u = false) :
    minorQ expected u = versionMatches
      (fun v => v.major == expected.major && v.minor == expected.minor) u := by
  simp only [tripleQ, versionMatches] at h
  simp only [minorQ, versionMatches]
  cases hv : u.version with
  | none => rfl
  | some v =>
    simp only [hv] at h ⊢
    cases ha : (v.major == expected.major) <;>
      cases hb : (v.minor == expected.minor) <;>
      cases hc : (v.revision == expected.revision) <;>
      simp_all

/-- When an installation is no major-minor match, the exclusive major-only
class agrees with the inclusive major class. -/
theorem majorQ_eq_of_minor_false (expected : UnityVersion)
    (u : UnityInstallation)
    (h : versionMatches
      (fun v => v.major == expected.major && v.minor == expected.minor) u
      = false) :
    majorQ expected u = versionMatches
      (fun v => v.major == expected.major) u := by
  simp only [versionMatches] at h
  simp only [majorQ, versionMatches]
  cases hv : u.version with
  | none => rfl
  | some v =>
    simp only [hv] at h ⊢
    cases ha : (v.major == expected.major) <;>
      cases hb : (v.minor == expected.minor) <;>
      simp_all

/-! ## C9: selection behaviour of `find_most_suitable_unity` -/

/-- C9: `find_most_suitable_unity` returns the first scanned installation
parsing exactly to the expected version, else — by decreasing preference —
the last-scanned installation agreeing on major, minor and revision, else on
major and minor, else on major; and it returns `none` whenever no
installation with a parseable version shares the expected major. -/
theorem find_most_suitable_unity_correct
    (installations : List UnityInstallation) (expected : UnityVersion) :
    find_most_suitable_unity installations expected =
      find_most_suitable_unity_claim installations expected ∧
    ((∀ u ∈ installations, ∀ v, u.version = some v →
        v.major ≠ expected.major) →
      find_most_suitable_unity installations expected = none) := by
  constructor
  · rw [find_most_suitable_unity, findSuitableLoop_invariant,
      find_most_suitable_unity_claim]
    cases hfind : installations.find? (fun u => u.version == some expected)
      with
    | some u => simp [hfind]
    | none =>
      simp only [hfind]
      rw [optionOrNone, optionOrNone, optionOrNone]
      simp only [tripleQ]
      cases hT : lastMatching (versionMatches fun v =>
          v.major == expected.major && v.minor == expected.minor &&
            v.revision == expected.revision) installations with
      | some t => rfl
      | none =>
        rw [optionNoneOr, optionNoneOr]
        have hTnone := (lastMatching_eq_none_iff _ installations).mp hT
        have hmEq : lastMatching (minorQ expected) installations =
            lastMatching (versionMatches fun v =>
              v.major == expected.major && v.minor == expected.minor)
              installations :=
          lastMatching_congr _ _ installations
            (fun u hu => minorQ_eq_of_triple_false expected u (hTnone u hu))
        rw [hmEq]
        cases hm : lastMatching (versionMatches fun v =>
            v.major == expected.major && v.minor == expected.minor)
            installations with
        | some w => rfl
        | none =>
          rw [optionNoneOr, optionNoneOr]
          have hmnone := (lastMatching_eq_none_iff _ installations).mp hm
          exact lastMatching_congr _ _ installations
            (fun u hu => majorQ_eq_of_minor_false expected u (hmnone u hu))
  · intro h
    rw [find_most_suitable_unity, findSuitableLoop_invariant]
    have hfind : installations.find? (fun u => u.version == some expected)
        = none := by
      rw [List.find?_eq_none]
      intro u hu hpred
      simp only [beq_iff_eq] at hpred
      exact h u hu expected hpred rfl
    rw [hfind]
    have h1 : lastMatching (tripleQ expected) installations = none := by
      rw [lastMatching_eq_none_iff]
      intro u hu
      unfold tripleQ versionMatches
      cases hv : u.version with
      | none => rfl
      | some v =>
        have := h u hu v hv
        simp [hv, this]
    have h2 : lastMatching (minorQ expected) installations = none := by
      rw [lastMatching_eq_none_iff]
      intro u hu
      unfold minorQ versionMatches
      cases hv : u.version with
      | none => rfl
      | some v =>
        have := h u hu v hv
        simp [hv, this]
    have h3 : lastMatching (majorQ expected) installations = none := by
      rw [lastMatching_eq_none_iff]
      intro u hu
      unfold majorQ versionMatches
      cases hv : u.version with
      | none => rfl
      | some v =>
        have := h u hu v hv
        simp [hv, this]
    rw [h1, h2, h3]
    rfl

/-- Witness for C9 at a concrete input: a single 2019 installation never
suits an expected 2022 version, and the scan agrees with its
characterisation. -/
theorem find_most_suitable_unity_correct_witness :
    find_most_suitable_unity [exInstall2019] exUnity2022 =
      find_most_suitable_unity_claim [exInstall2019] exUnity2022 ∧
    find_most_suitable_unity [exInstall2019] exUnity2022 = none :=
  ⟨(find_most_suitable_unity_correct [exInstall2019] exUnity2022).1,
    (find_most_suitable_unity_correct [exInstall2019] exUnity2022).2
      (by
        intro u hu v hv
        rw [List.mem_singleton] at hu
        subst hu
        have hv' : some exUnity2019 = some v := hv
        obtain rfl := Option.some.inj hv'
        decide)⟩

/-! ## C10: the duplicate-path guard of `add_unity_installation` -/

/-- C10: a path already recorded in the database makes
`add_unity_installation` return an `AlreadyExists` error with the database
unchanged — uniformly in the probe outcome, so the editor executable is
never consulted — and consequently the operation preserves distinctness of
the recorded paths. -/
theorem add_unity_installation_duplicate_guard (db : List DbUnityVersion)
    (path : String) (probe : ProbeResult)
    (parseVersion : String → Option UnityVersion) :
    ((∃ x ∈ db, x.path = path) →
      add_unity_installation db path probe parseVersion =
        (.error ⟨.alreadyExists,
          "unity installation at " ++ path ++ " already exists"⟩, db)) ∧
    ((db.map DbUnityVersion.path).Nodup →
      ((add_unity_installation db path probe parseVersion).2.map
        DbUnityVersion.path).Nodup) := by
  constructor
  · rintro ⟨x, hx, hpath⟩
    have hany : db.any (fun x => x.path == path) = true := by
      rw [List.any_eq_true]
      exact ⟨x, hx, by simp [hpath]⟩
    simp [add_unity_installation, hany]
  · intro hnodup
    cases hany : db.any (fun x => x.path == path) with
    | true =>
      simp only [add_unity_installation, hany, if_true]
      exact hnodup
    | false =>
      have hnotin : path ∉ db.map DbUnityVersion.path := by
        intro hin
        rw [List.mem_map] at hin
        obtain ⟨x, hx, hpx⟩ := hin
        rw [List.any_eq_false] at hany
        exact hany x hx (by simp [hpx])
      simp only [add_unity_installation, hany, Bool.false_eq_true, if_false]
      cases probe with
      | timedOut => exact hnodup
      | spawnFailed err => exact hnodup
      | exited success stdout =>
        cases success with
        | false => exact hnodup
        | true =>
          simp only [Bool.not_true, Bool.false_eq_true, if_false]
          cases hparse : parseVersion
              ((stdout.takeWhile (fun c => c ≠ ' ')).trim) with
          | none => exact hnodup
          | some version =>
            simp only []
            rw [List.map_append, List.nodup_append]
            refine ⟨hnodup, List.nodup_singleton _, ?_⟩
            intro a ha hb
            simp only [List.map_cons, List.map_nil,
              List.mem_singleton] at hb
            subst hb
            exact hnotin ha

/-- Witness for C10 at a concrete input: re-adding the recorded path
`/unity2019` fails with `AlreadyExists` and leaves the database unchanged,
and path distinctness is preserved. -/
theorem add_unity_installation_duplicate_guard_witness :
    add_unity_installation [exDbRecord] "/unity2019"
        (ProbeResult.exited true "2019.4.31f1") (fun _ => some exUnity2019) =
      (.error ⟨.alreadyExists,
        "unity installation at " ++ "/unity2019" ++ " already exists"⟩,
        [exDbRecord]) ∧
    ((add_unity_installation [exDbRecord] "/unity2019"
        (ProbeResult.exited true "2019.4.31f1")
        (fun _ => some exUnity2019)).2.map DbUnityVersion.path).Nodup :=
  ⟨(add_unity_installation_duplicate_guard [exDbRecord] "/unity2019"
      (ProbeResult.exited true "2019.4.31f1") (fun _ => some exUnity2019)).1
      ⟨exDbRecord, by simp, rfl⟩,
    (add_unity_installation_duplicate_guard [exDbRecord] "/unity2019"
      (ProbeResult.exited true "2019.4.31f1") (fun _ => some exUnity2019)).2
      (by simp)⟩

end VrcGet
